import Mathlib

/-!
# logext.CycleWriter

A shallow embedding of `cycle_writer.go` and the statements of its specification.

The Go code talks to the operating system through three calls of package `os`:
`os.OpenFile`, `(*os.File).Close` and `(*os.File).Write`.  They are modelled here by
pure functions over an explicit state `OS` (directory, file contents, a record of the
calls issued).  Whether a call succeeds is not decided by the program, so each call
takes its outcome as an argument.

The mutex `lock` serialises `Write` and `Cycle`; the embedding is the sequential
semantics of one body running from `Lock` to `Unlock`, so the mutex has no field.
-/

namespace Logext

/-- Go `[]byte`. -/
abbrev Bytes := List UInt8

/-- Go `error` values that occur: the two sentinel errors of package `os` that the
modelled calls produce themselves, and an error number reported by the kernel. -/
inductive Error where
  | invalid
  | shortWrite
  | errno (code : Nat)
  deriving DecidableEq, Repr

/-- The value behind a non-nil `*os.File`: `id` tells one opened resource from
another, `ino` is the file (inode) the descriptor was opened on.  A descriptor stays
on its inode when the directory entry is renamed. -/
structure File where
  id : Nat
  ino : Nat
  deriving DecidableEq, Repr

/-- One call issued to the operating system. -/
inductive Syscall where
  | openFile (name : String) (res : Option Nat)
  | close (id : Nat)
  | write (id : Nat) (n : Nat)
  deriving DecidableEq, Repr

/-- The part of the operating system the writer can see. `dir` maps a path to the
inode it names, `data` gives the contents of an inode, `nextIno` and `nextId` are the
next unused inode and resource numbers, `trace` is the record of the calls issued so
far, newest first. -/
structure OS where
  dir : String → Option Nat
  data : Nat → Bytes
  nextIno : Nat
  nextId : Nat
  trace : List Syscall

/-- The contents of the file at path `p`, `none` when no file exists there. -/
def OS.readFile (os : OS) (p : String) : Option Bytes :=
  (os.dir p).map os.data

/-- The external `rename(from, to)`: the directory entry `from` disappears and `to`
names the inode `from` named, replacing what `to` named before.  Nothing happens
when `from` does not exist. -/
def OS.rename (os : OS) (src dst : String) : OS :=
  match os.dir src with
  | none => os
  | some i =>
    { os with dir := fun q => if q = dst then some i else if q = src then none else os.dir q }

/-- A file system with no files and no calls issued. -/
def OS.empty : OS :=
  { dir := fun _ => none, data := fun _ => [], nextIno := 0, nextId := 0, trace := [] }

/-- The call `os.OpenFile(name, os.O_APPEND|os.O_WRONLY|os.O_CREATE, 0666)`.
`err` is the outcome the operating system gives: on `some e` the call returns
`(nil, e)`.  Otherwise an existing file is opened as it is (there is no `O_TRUNC`),
a missing file is created empty, and the new resource is returned. -/
def OpenFile (os : OS) (name : String) (err : Option Error) : Except Error File × OS :=
  match err with
  | some e => (.error e, { os with trace := .openFile name none :: os.trace })
  | none =>
    match os.dir name with
    | some i =>
      (.ok { id := os.nextId, ino := i },
        { os with nextId := os.nextId + 1
                  trace := .openFile name (some os.nextId) :: os.trace })
    | none =>
      (.ok { id := os.nextId, ino := os.nextIno },
        { os with dir := fun q => if q = name then some os.nextIno else os.dir q
                  data := fun j => if j = os.nextIno then [] else os.data j
                  nextIno := os.nextIno + 1
                  nextId := os.nextId + 1
                  trace := .openFile name (some os.nextId) :: os.trace })

/-- The call `f.Close()` on a non-nil file: the close is issued and the outcome `err`
of the operating system is returned. -/
def File.Close (os : OS) (f : File) (err : Option Error) : Option Error × OS :=
  (err, { os with trace := .close f.id :: os.trace })

/-- The outcome the operating system gives to one write: everything stored, or only
the first `accepted` bytes stored and error `e`. -/
inductive WriteOutcome where
  | ok
  | fail (accepted : Nat) (e : Error)
  deriving DecidableEq, Repr

/-- The call `f.Write(b)` on a `*os.File` opened with `O_APPEND`.  A nil file gives
`(0, ErrInvalid)` without a call to the operating system; otherwise the stored bytes
are appended to the end of the inode. -/
def File.Write (os : OS) (fp : Option File) (b : Bytes) (io : WriteOutcome) :
    (Nat × Option Error) × OS :=
  match fp with
  | none => ((0, some .invalid), os)
  | some f =>
    match io with
    | .ok =>
      ((b.length, none),
        { os with data := fun j => if j = f.ino then os.data j ++ b else os.data j
                  trace := .write f.id b.length :: os.trace })
    | .fail n e =>
      ((min n b.length, some e),
        { os with data := fun j => if j = f.ino then os.data j ++ b.take n else os.data j
                  trace := .write f.id (min n b.length) :: os.trace })

/-- The struct `CycleWriter`; `fp = none` is the nil pointer. -/
structure CycleWriter where
  filename : String
  fp : Option File
  deriving DecidableEq, Repr

/-- The outcomes the operating system gives to the two calls of one `Cycle`: to the
close, if one is issued, and to the open, if one is issued. -/
structure CycleOutcome where
  closeErr : Option Error
  openErr : Option Error
  deriving DecidableEq, Repr

/-- The method `Write`: `return w.fp.Write(output)`. -/
def CycleWriter.Write (w : CycleWriter) (os : OS) (output : Bytes) (io : WriteOutcome) :
    (Nat × Option Error) × CycleWriter × OS :=
  let (r, os1) := File.Write os w.fp output io
  (r, w, os1)

/-- The last two lines of `Cycle`: `w.fp, err = os.OpenFile(...)`, `return err`. -/
def CycleWriter.reopen (w : CycleWriter) (os : OS) (openErr : Option Error) :
    Option Error × CycleWriter × OS :=
  match OpenFile os w.filename openErr with
  | (.ok f, os1) => (none, { w with fp := some f }, os1)
  | (.error e, os1) => (some e, { w with fp := none }, os1)

/-- The method `Cycle`: close the file if one is open, set `fp` to nil, return the
close error if there is one; then open the file again. -/
def CycleWriter.Cycle (w : CycleWriter) (os : OS) (io : CycleOutcome) :
    Option Error × CycleWriter × OS :=
  match w.fp with
  | some f =>
    match File.Close os f io.closeErr with
    | (some e, os1) => (some e, { w with fp := none }, os1)
    | (none, os1) => CycleWriter.reopen { w with fp := none } os1 io.openErr
  | none => CycleWriter.reopen w os io.openErr

/-- The function `NewCycleWriter`: a writer with only the file name set is cycled
once; `none` is the nil result. -/
def NewCycleWriter (filename : String) (os : OS) (io : CycleOutcome) :
    Option CycleWriter × OS :=
  match CycleWriter.Cycle { filename := filename, fp := none } os io with
  | (some _, _, os1) => (none, os1)
  | (none, w, os1) => (some w, os1)

/-! ## Sequences of operations on one writer -/

/-- One completed call on a writer, with the outcomes the operating system gave. -/
inductive Op where
  | write (output : Bytes) (io : WriteOutcome)
  | cycle (io : CycleOutcome)
  deriving DecidableEq, Repr

/-- What a completed call returned to its caller. -/
inductive Result where
  | wrote (n : Nat) (err : Option Error)
  | cycled (err : Option Error)
  deriving DecidableEq, Repr

/-- Run one call. -/
def step (w : CycleWriter) (os : OS) : Op → Result × CycleWriter × OS
  | .write output io =>
    match w.Write os output io with
    | ((n, err), w1, os1) => (.wrote n err, w1, os1)
  | .cycle io =>
    match w.Cycle os io with
    | (err, w1, os1) => (.cycled err, w1, os1)

/-- Run calls one after the other; the results are in call order. -/
def run (w : CycleWriter) (os : OS) : List Op → List Result × CycleWriter × OS
  | [] => ([], w, os)
  | op :: ops =>
    match step w os op with
    | (r, w1, os1) =>
      match run w1 os1 ops with
      | (rs, w2, os2) => (r :: rs, w2, os2)

/-- Construction followed by calls on the writer it returned; when construction
returns nil there is no writer to call. -/
def session (filename : String) (os : OS) (io : CycleOutcome) (ops : List Op) :
    Option CycleWriter × OS :=
  match NewCycleWriter filename os io with
  | (none, os1) => (none, os1)
  | (some w, os1) =>
    match run w os1 ops with
    | (_, w2, os2) => (some w2, os2)

/-- The error returned by the most recent `Cycle` among the results `rs` (in call
order), `init` when there is none. -/
def lastCycleErr (init : Option Error) (rs : List Result) : Option Error :=
  rs.foldl (fun acc r => match r with
    | .cycled e => e
    | .wrote _ _ => acc) init

/-- The resources opened and not yet closed, read off a record of calls (newest
first): a successful open adds its resource, a close that is issued removes it,
whatever the close returns. -/
def live : List Syscall → List Nat
  | [] => []
  | .openFile _ (some id) :: t => id :: live t
  | .openFile _ none :: t => live t
  | .close id :: t => (live t).erase id
  | .write _ _ :: t => live t

/-- The resource of the most recent successful open in a record of calls. -/
def lastOpened : List Syscall → Option Nat
  | [] => none
  | .openFile _ (some id) :: _ => some id
  | _ :: t => lastOpened t

/-- At every point of the record at most one resource is opened and not closed. -/
def AtMostOneOpen (tr : List Syscall) : Prop :=
  ∀ t, t <:+ tr → (live t).length ≤ 1

/-- Every successful open in the record was issued when no resource was open. -/
def OpensWhenNoneOpen (tr : List Syscall) : Prop :=
  ∀ name id t, (Syscall.openFile name (some id) :: t) <:+ tr → live t = []

/-! ## The listener started by `OnSignal` -/

/-- A `syscall.Signal`: its number, and the name `%v` prints for it. -/
structure Signal where
  num : Nat
  name : String
  deriving DecidableEq, Repr

/-- Where the default logger of package `log` writes: this writer (the process has
called `log.SetOutput(w)`), `os.Stdout`, or some other destination. -/
inductive LogOutput where
  | writer
  | stdout
  | other
  deriving DecidableEq, Repr

/-- The three lines the listener logs. -/
inductive LogLine where
  | receivedSignal
  | couldNotCycle
  | startingNewFile
  deriving DecidableEq, Repr

/-- The bytes of a string. -/
def utf8 (s : String) : Bytes :=
  s.toUTF8.data.toList

/-- The message of a line, as `log.Printf` and `log.Println` complete it: each ends
with one newline. -/
def LogLine.message (sig : Signal) : LogLine → String
  | .receivedSignal => "received signal " ++ sig.name ++ "\n"
  | .couldNotCycle => "could not cycle log file. using stdout.\n"
  | .startingNewFile => "starting new file\n"

/-- What is not decided by the program when one line is logged: the header the
logger puts before the message (prefix, date and time, as its flags say) and the
outcome of the one write the logger makes to its destination. -/
structure LogOutcome where
  header : Bytes
  io : WriteOutcome
  deriving DecidableEq, Repr

/-- The bytes the logger hands to its destination for a line. -/
def LogOutcome.text (lo : LogOutcome) (sig : Signal) (line : LogLine) : Bytes :=
  lo.header ++ utf8 (line.message sig)

/-- The bytes of `b` that a write with outcome `io` stores. -/
def WriteOutcome.stored (io : WriteOutcome) (b : Bytes) : Bytes :=
  match io with
  | .ok => b
  | .fail n _ => b.take n

/-- The state one listener goroutine acts on.  `notified` says that the
`signal.Notify(ch, sig)` registration is in force, `running` that the goroutine has
not returned.  `logOutput` is the destination of the default logger, `stdout` the
bytes the logger has written to `os.Stdout`, and `logged` the lines given to the
logger with the destination each went to, newest first.  `calls` holds what each
`Cycle` call of the listener returned, newest first. -/
structure Listener where
  w : CycleWriter
  os : OS
  sig : Signal
  notified : Bool
  running : Bool
  logOutput : LogOutput
  stdout : Bytes
  logged : List (LogOutput × LogLine)
  calls : List (Option Error)

/-- The method `OnSignal`: the channel is registered for `sig` and the goroutine is
started.  `dest` is the destination the default logger has at that moment. -/
def CycleWriter.OnSignal (w : CycleWriter) (os : OS) (sig : Signal) (dest : LogOutput) :
    Listener :=
  { w := w, os := os, sig := sig, notified := true, running := true,
    logOutput := dest, stdout := [], logged := [], calls := [] }

/-- One call of `log.Printf` or `log.Println`: the logger makes one write of the
line to its destination and drops what the write returns.  When the destination is
the writer, that write is `w.Write`. -/
def Listener.log (p : Listener) (line : LogLine) (lo : LogOutcome) : Listener :=
  match p.logOutput with
  | .writer =>
    match p.w.Write p.os (lo.text p.sig line) lo.io with
    | (_, w1, os1) => { p with w := w1, os := os1, logged := (.writer, line) :: p.logged }
  | .stdout =>
    { p with stdout := p.stdout ++ lo.io.stored (lo.text p.sig line)
             logged := (.stdout, line) :: p.logged }
  | .other => { p with logged := (.other, line) :: p.logged }

/-- What one delivery of the signal meets: the outcomes for the line logged on
receipt, for the cycle, and for the line logged after the cycle. -/
structure Delivery where
  received : LogOutcome
  cycle : CycleOutcome
  after : LogOutcome
  deriving DecidableEq, Repr

/-- One delivery of the signal.  The delivery reaches the channel only while the
registration is in force, and the loop body runs only while the goroutine has not
returned.  The body: log the receipt, `Cycle`; on an error set the log output to
`os.Stdout`, log the diagnostic, `signal.Reset(sig)`, return; otherwise log that a
new file starts. -/
def Listener.deliver (p : Listener) (d : Delivery) : Listener :=
  if p.notified && p.running then
    match (p.log .receivedSignal d.received).w.Cycle
        (p.log .receivedSignal d.received).os d.cycle with
    | (some e, w1, os1) =>
      { Listener.log
          { p.log .receivedSignal d.received with
              w := w1, os := os1,
              calls := some e :: (p.log .receivedSignal d.received).calls,
              logOutput := .stdout }
          .couldNotCycle d.after with
        notified := false, running := false }
    | (none, w1, os1) =>
      Listener.log
        { p.log .receivedSignal d.received with
            w := w1, os := os1,
            calls := none :: (p.log .receivedSignal d.received).calls }
        .startingNewFile d.after
  else p

/-- A sequence of deliveries, handled in order. -/
def Listener.deliverAll (p : Listener) : List Delivery → Listener
  | [] => p
  | d :: ds => (p.deliver d).deliverAll ds

/-- The listener is waiting for the next delivery. -/
def Listener.listening (p : Listener) : Bool :=
  p.notified && p.running

/-- The calls on the writer that logging one line amounts to: one `Write` when the
logger writes to the writer, none otherwise. -/
def logOps (dest : LogOutput) (sig : Signal) (line : LogLine) (lo : LogOutcome) :
    List Op :=
  match dest with
  | .writer => [.write (lo.text sig line) lo.io]
  | .stdout => []
  | .other => []

/-- The calls on the writer that one delivery amounts to when its cycle succeeds:
the receipt line, exactly one `Cycle`, the line that a new file starts. -/
def Delivery.ops (dest : LogOutput) (sig : Signal) (d : Delivery) : List Op :=
  logOps dest sig .receivedSignal d.received ++ [.cycle d.cycle] ++
    logOps dest sig .startingNewFile d.after

/-- The calls on the writer that one delivery amounts to when its cycle fails: the
receipt line and exactly one `Cycle`; the diagnostic goes to `os.Stdout`. -/
def Delivery.failOps (dest : LogOutput) (sig : Signal) (d : Delivery) : List Op :=
  logOps dest sig .receivedSignal d.received ++ [.cycle d.cycle]

/-- The result is a `Cycle` that returned an error. -/
def Result.failedCycle : Result → Bool
  | .cycled (some _) => true
  | _ => false

/-- The inode a successful open of `name` lands on: the existing one, or the next
unused one when the file has to be created. -/
def OS.target (os : OS) (name : String) : Nat :=
  (os.dir name).getD os.nextIno


/-! ## The rotation scenarios -/

/-- Writes that the operating system stores in full, one for each chunk. -/
def writesOk (chunks : List Bytes) : List Op :=
  chunks.map (fun c => Op.write c .ok)

/-- The scenario in the order the specification gives it, every call succeeding:
construct a writer on `p`, write the chunks, `Cycle`, rename `p` to `q` from outside,
write `b`.  The result is the file system at the end. -/
def cycleThenRename (p q : String) (chunks : List Bytes) (b : Bytes) (os : OS) : OS :=
  match session p os ⟨none, none⟩ (writesOk chunks ++ [.cycle ⟨none, none⟩]) with
  | (none, os1) => os1
  | (some w, os1) => (w.Write (os1.rename p q) b .ok).2.2

/-- The same scenario with the rename issued before the `Cycle`. -/
def renameThenCycle (p q : String) (chunks : List Bytes) (b : Bytes) (os : OS) : OS :=
  match session p os ⟨none, none⟩ (writesOk chunks) with
  | (none, os1) => os1
  | (some w, os1) =>
    match w.Cycle (os1.rename p q) ⟨none, none⟩ with
    | (_, w2, os2) => (w2.Write os2 b .ok).2.2

/-- The call is a `Write`. -/
def Op.isWrite : Op → Bool
  | .write _ _ => true
  | .cycle _ => false

/-- The invariant that ties the record of calls to the handle: the resources opened
and not closed are exactly the handle, at no earlier point were there two, every open
was issued with none open, and a handle that is present is the most recent one
opened. -/
def Owned (tr : List Syscall) (fp : Option File) : Prop :=
  live tr = (fp.map File.id).toList ∧ AtMostOneOpen tr ∧ OpensWhenNoneOpen tr ∧
    (fp = none ∨ fp.map File.id = lastOpened tr)

/-! ## Unfolding lemmas -/

theorem reopen_err (w : CycleWriter) (os : OS) (e : Error) :
    w.reopen os (some e) =
      (some e, { w with fp := none },
        { os with trace := .openFile w.filename none :: os.trace }) := by
  simp [CycleWriter.reopen, OpenFile]

theorem reopen_fst (w : CycleWriter) (os : OS) (oe : Option Error) :
    (w.reopen os oe).1 = oe := by
  cases oe with
  | some e => simp [reopen_err]
  | none =>
    cases h : os.dir w.filename <;> simp [CycleWriter.reopen, OpenFile, h]

theorem cycle_nil (w : CycleWriter) (os : OS) (io : CycleOutcome) (h : w.fp = none) :
    w.Cycle os io = w.reopen os io.openErr := by
  simp [CycleWriter.Cycle, h]

theorem cycle_close_err (w : CycleWriter) (os : OS) (io : CycleOutcome) (f : File)
    (e : Error) (h : w.fp = some f) (hc : io.closeErr = some e) :
    w.Cycle os io =
      (some e, { w with fp := none }, { os with trace := .close f.id :: os.trace }) := by
  simp [CycleWriter.Cycle, h, File.Close, hc]

theorem cycle_close_ok (w : CycleWriter) (os : OS) (io : CycleOutcome) (f : File)
    (h : w.fp = some f) (hc : io.closeErr = none) :
    w.Cycle os io =
      CycleWriter.reopen { w with fp := none }
        { os with trace := .close f.id :: os.trace } io.openErr := by
  simp [CycleWriter.Cycle, h, File.Close, hc]

/-! ## Cycle: the two failures -/

/-- C1: when the handle is present and the close fails with `e`, `Cycle` returns `e`,
leaves the handle nil, and the only call it issued is the close: no open is
attempted, and the directory and the file contents are untouched. -/
theorem cycle_close_failure (w : CycleWriter) (os : OS) (io : CycleOutcome) (f : File)
    (e : Error) (hfp : w.fp = some f) (hclose : io.closeErr = some e) :
    (w.Cycle os io).1 = some e ∧
    (w.Cycle os io).2.1.fp = none ∧
    (w.Cycle os io).2.1.filename = w.filename ∧
    (w.Cycle os io).2.2.trace = .close f.id :: os.trace ∧
    (w.Cycle os io).2.2.dir = os.dir ∧
    (w.Cycle os io).2.2.data = os.data ∧
    (w.Cycle os io).2.2.nextId = os.nextId := by
  simp [cycle_close_err w os io f e hfp hclose]

theorem cycle_close_failure_witness :
    (CycleWriter.Cycle ⟨"/tmp/x.log", some ⟨0, 0⟩⟩
      (NewCycleWriter "/tmp/x.log" OS.empty ⟨none, none⟩).2 ⟨some (.errno 5), none⟩).1
        = some (.errno 5) ∧
    (CycleWriter.Cycle ⟨"/tmp/x.log", some ⟨0, 0⟩⟩
      (NewCycleWriter "/tmp/x.log" OS.empty ⟨none, none⟩).2 ⟨some (.errno 5), none⟩).2.1.fp
        = none :=
  have h := cycle_close_failure ⟨"/tmp/x.log", some ⟨0, 0⟩⟩
    (NewCycleWriter "/tmp/x.log" OS.empty ⟨none, none⟩).2
    ⟨some (.errno 5), none⟩ ⟨0, 0⟩ (.errno 5) rfl rfl
  ⟨h.1, h.2.1⟩

/-- C2: when the close step succeeds, or there is no handle to close, and the open
fails with `e`, `Cycle` returns `e` and the handle is nil afterwards; a handle present
before the call has had its close issued. -/
theorem cycle_open_failure (w : CycleWriter) (os : OS) (io : CycleOutcome) (e : Error)
    (hclose : w.fp = none ∨ io.closeErr = none) (hopen : io.openErr = some e) :
    (w.Cycle os io).1 = some e ∧
    (w.Cycle os io).2.1.fp = none ∧
    (w.fp = none →
      (w.Cycle os io).2.2.trace = .openFile w.filename none :: os.trace) ∧
    (∀ f, w.fp = some f →
      (w.Cycle os io).2.2.trace =
        .openFile w.filename none :: .close f.id :: os.trace) := by
  cases hw : w.fp with
  | none => simp [cycle_nil w os io hw, hopen, reopen_err]
  | some f =>
    have hc : io.closeErr = none := by
      rcases hclose with h | h
      · simp [hw] at h
      · exact h
    simp [cycle_close_ok w os io f hw hc, hopen, reopen_err]

theorem cycle_open_failure_witness :
    (CycleWriter.Cycle ⟨"/tmp/x.log", some ⟨0, 0⟩⟩
      (NewCycleWriter "/tmp/x.log" OS.empty ⟨none, none⟩).2 ⟨none, some (.errno 13)⟩).1
        = some (.errno 13) ∧
    (CycleWriter.Cycle ⟨"/tmp/x.log", some ⟨0, 0⟩⟩
      (NewCycleWriter "/tmp/x.log" OS.empty ⟨none, none⟩).2 ⟨none, some (.errno 13)⟩).2.1.fp
        = none :=
  have h := cycle_open_failure ⟨"/tmp/x.log", some ⟨0, 0⟩⟩
    (NewCycleWriter "/tmp/x.log" OS.empty ⟨none, none⟩).2
    ⟨none, some (.errno 13)⟩ (.errno 13) (Or.inr rfl) rfl
  ⟨h.1, h.2.1⟩

/-! ## Construction -/

theorem reopen_ok (w : CycleWriter) (os : OS) :
    (w.reopen os none).1 = none ∧
    (w.reopen os none).2.1 =
      { w with fp := some { id := os.nextId, ino := os.target w.filename } } ∧
    (w.reopen os none).2.2.trace = .openFile w.filename (some os.nextId) :: os.trace ∧
    (w.reopen os none).2.2.dir w.filename = some (os.target w.filename) ∧
    (w.reopen os none).2.2.data (os.target w.filename) =
      (os.readFile w.filename).getD [] ∧
    (w.reopen os none).2.2.nextId = os.nextId + 1 := by
  cases h : os.dir w.filename <;>
    simp [CycleWriter.reopen, OpenFile, OS.target, OS.readFile, h]

theorem write_ok_some (w : CycleWriter) (os : OS) (f : File) (b : Bytes)
    (h : w.fp = some f) :
    w.Write os b .ok =
      ((b.length, none), w,
        { os with data := fun j => if j = f.ino then os.data j ++ b else os.data j
                  trace := .write f.id b.length :: os.trace }) := by
  simp [CycleWriter.Write, File.Write, h]

/-- C4: `NewCycleWriter` issues one open of the given path and returns nil exactly
when that open fails.  When it succeeds the writer returned has the given file name
and a handle that is opened and not closed, that sits on the file the path names, and
through which a write appends to what that file held (nothing, when it was created). -/
theorem new_cycle_writer_nil_iff (filename : String) (os : OS) (io : CycleOutcome) :
    ((NewCycleWriter filename os io).1 = none ↔ io.openErr ≠ none) ∧
    (∃ r, (NewCycleWriter filename os io).2.trace = .openFile filename r :: os.trace ∧
      (r = none ↔ io.openErr ≠ none)) ∧
    (∀ w, (NewCycleWriter filename os io).1 = some w →
      w.filename = filename ∧
      ∃ f, w.fp = some f ∧
        (NewCycleWriter filename os io).2.dir filename = some f.ino ∧
        f.id ∈ live (NewCycleWriter filename os io).2.trace ∧
        ∀ b, (w.Write (NewCycleWriter filename os io).2 b .ok).2.2.readFile filename =
          some ((os.readFile filename).getD [] ++ b)) := by
  cases hio : io.openErr with
  | some e =>
    simp [NewCycleWriter, cycle_nil, hio, reopen_err]
  | none =>
    obtain ⟨h1, h2, h3, h4, h5, _⟩ :=
      reopen_ok { filename := filename, fp := none } os
    have hN : NewCycleWriter filename os io =
        (some { filename := filename, fp := some { id := os.nextId, ino := os.target filename } },
          (CycleWriter.reopen { filename := filename, fp := none } os none).2.2) := by
      have hc := cycle_nil { filename := filename, fp := none } os io rfl
      rw [hio] at hc
      rcases hr : CycleWriter.reopen { filename := filename, fp := none } os none with
        ⟨r, w1, os1⟩
      rw [hr] at h1 h2 hc
      simp only at h1 h2
      subst h1 h2
      simp [NewCycleWriter, hc]
    simp only [hN]
    refine ⟨by simp, ⟨some os.nextId, h3, by simp⟩, ?_⟩
    intro w hw
    simp only [Option.some.injEq] at hw
    subst hw
    refine ⟨rfl, _, rfl, h4, ?_, ?_⟩
    · rw [h3]; simp [live]
    · intro b
      rw [write_ok_some _ _ _ b rfl]
      simp only [OS.readFile] at h5 ⊢
      simp only at h4
      simp [h4, h5]

/-! ## Rotation -/

theorem run_append (w : CycleWriter) (os : OS) (xs ys : List Op) :
    (run w os (xs ++ ys)).2 = (run (run w os xs).2.1 (run w os xs).2.2 ys).2 := by
  induction xs generalizing w os with
  | nil => rfl
  | cons x xs ih =>
    simp only [List.cons_append, run]
    exact ih _ _

theorem run_cons_snd (w : CycleWriter) (os : OS) (op : Op) (ops : List Op) :
    (run w os (op :: ops)).2 = (run (step w os op).2.1 (step w os op).2.2 ops).2 := rfl

theorem run_writesOk (w : CycleWriter) (os : OS) (f : File) (chunks : List Bytes)
    (h : w.fp = some f) :
    (run w os (writesOk chunks)).2 =
      (w, { os with
              data := fun j => if j = f.ino then os.data j ++ chunks.flatten else os.data j
              trace := (chunks.map fun c => Syscall.write f.id c.length).reverse ++ os.trace }) := by
  induction chunks generalizing os with
  | nil => simp [writesOk, run]
  | cons c cs ih =>
    have hs : step w os (.write c .ok) = (.wrote c.length none, w,
        { os with data := fun j => if j = f.ino then os.data j ++ c else os.data j
                  trace := .write f.id c.length :: os.trace }) := by
      simp [step, write_ok_some w os f c h]
    have hc : writesOk (c :: cs) = .write c .ok :: writesOk cs := rfl
    rw [hc, run_cons_snd, hs, ih]
    simp only [Prod.mk.injEq, true_and]
    congr 1
    · funext j
      by_cases hj : j = f.ino <;> simp [hj]
    · simp

theorem new_fresh (p : String) (os : OS) (h : os.dir p = none) :
    NewCycleWriter p os ⟨none, none⟩ =
      (some { filename := p, fp := some { id := os.nextId, ino := os.nextIno } },
        { os with dir := fun q => if q = p then some os.nextIno else os.dir q
                  data := fun j => if j = os.nextIno then [] else os.data j
                  nextIno := os.nextIno + 1
                  nextId := os.nextId + 1
                  trace := .openFile p (some os.nextId) :: os.trace }) := by
  simp [NewCycleWriter, CycleWriter.Cycle, CycleWriter.reopen, OpenFile, h]

theorem session_some (p : String) (os os1 : OS) (io : CycleOutcome) (w : CycleWriter)
    (ops : List Op) (h : NewCycleWriter p os io = (some w, os1)) :
    session p os io ops = (some (run w os1 ops).2.1, (run w os1 ops).2.2) := by
  simp [session, h]

theorem cycle_then_rename_aux (p q : String) (f : File) (os : OS) (chunks : List Bytes)
    (b : Bytes) (hd : os.dir p = some f.ino) (hq : q ≠ p) :
    ((CycleWriter.Write
        (run ⟨p, some f⟩ os (writesOk chunks ++ [.cycle ⟨none, none⟩])).2.1
        ((run ⟨p, some f⟩ os (writesOk chunks ++ [.cycle ⟨none, none⟩])).2.2.rename p q)
        b .ok).2.2.readFile p = none) ∧
    ((CycleWriter.Write
        (run ⟨p, some f⟩ os (writesOk chunks ++ [.cycle ⟨none, none⟩])).2.1
        ((run ⟨p, some f⟩ os (writesOk chunks ++ [.cycle ⟨none, none⟩])).2.2.rename p q)
        b .ok).2.2.readFile q = some (os.data f.ino ++ chunks.flatten ++ b)) := by
  have hq' : p ≠ q := fun h => hq h.symm
  rw [run_append, run_writesOk ⟨p, some f⟩ os f chunks rfl]
  simp [run, step, CycleWriter.Cycle, CycleWriter.reopen, OpenFile, File.Close,
    CycleWriter.Write, File.Write, OS.readFile, OS.rename, hq, hq', hd]

theorem rename_then_cycle_aux (p q : String) (f : File) (os : OS) (chunks : List Bytes)
    (b : Bytes) (hd : os.dir p = some f.ino) (hq : q ≠ p) (hf : f.ino ≠ os.nextIno) :
    ((CycleWriter.Write
        (CycleWriter.Cycle (run ⟨p, some f⟩ os (writesOk chunks)).2.1
          ((run ⟨p, some f⟩ os (writesOk chunks)).2.2.rename p q) ⟨none, none⟩).2.1
        (CycleWriter.Cycle (run ⟨p, some f⟩ os (writesOk chunks)).2.1
          ((run ⟨p, some f⟩ os (writesOk chunks)).2.2.rename p q) ⟨none, none⟩).2.2
        b .ok).2.2.readFile p = some b) ∧
    ((CycleWriter.Write
        (CycleWriter.Cycle (run ⟨p, some f⟩ os (writesOk chunks)).2.1
          ((run ⟨p, some f⟩ os (writesOk chunks)).2.2.rename p q) ⟨none, none⟩).2.1
        (CycleWriter.Cycle (run ⟨p, some f⟩ os (writesOk chunks)).2.1
          ((run ⟨p, some f⟩ os (writesOk chunks)).2.2.rename p q) ⟨none, none⟩).2.2
        b .ok).2.2.readFile q = some (os.data f.ino ++ chunks.flatten)) := by
  have hq' : p ≠ q := fun h => hq h.symm
  rw [run_writesOk ⟨p, some f⟩ os f chunks rfl]
  simp [CycleWriter.Cycle, CycleWriter.reopen, OpenFile, File.Close,
    CycleWriter.Write, File.Write, OS.readFile, OS.rename, hq, hq', hd, hf]

/-- C5 (amended): on a path `p` with no file, every call succeeding and `q` distinct
from `p`: construct, write the chunks, `Cycle`, rename `p` to `q`, write `b` leaves no
file at `p` and a file at `q` holding the chunks followed by `b`, because the handle
opened by `Cycle` stays on the renamed file.  With the rename issued before the
`Cycle`, the file at `p` holds exactly `b` and the file at `q` exactly the chunks. -/
theorem rename_scenario (p q : String) (chunks : List Bytes) (b : Bytes) (os : OS)
    (hp : os.dir p = none) (hq : q ≠ p) :
    ((cycleThenRename p q chunks b os).readFile p = none ∧
      (cycleThenRename p q chunks b os).readFile q = some (chunks.flatten ++ b)) ∧
    ((renameThenCycle p q chunks b os).readFile p = some b ∧
      (renameThenCycle p q chunks b os).readFile q = some chunks.flatten) := by
  constructor
  · have h := cycle_then_rename_aux p q ⟨os.nextId, os.nextIno⟩
      { os with dir := fun q => if q = p then some os.nextIno else os.dir q
                data := fun j => if j = os.nextIno then [] else os.data j
                nextIno := os.nextIno + 1
                nextId := os.nextId + 1
                trace := .openFile p (some os.nextId) :: os.trace } chunks b (by simp) hq
    simp only [cycleThenRename, session_some p os _ _ _ _ (new_fresh p os hp)]
    simpa using h
  · have h := rename_then_cycle_aux p q ⟨os.nextId, os.nextIno⟩
      { os with dir := fun q => if q = p then some os.nextIno else os.dir q
                data := fun j => if j = os.nextIno then [] else os.data j
                nextIno := os.nextIno + 1
                nextId := os.nextId + 1
                trace := .openFile p (some os.nextId) :: os.trace } chunks b (by simp) hq
                (by simp)
    simp only [renameThenCycle, session_some p os _ _ _ _ (new_fresh p os hp)]
    simpa using h

theorem rename_scenario_witness :
    (renameThenCycle "/tmp/x.log" "/tmp/x.log.1" [[97], [98]] [99] OS.empty).readFile
        "/tmp/x.log" = some [99] ∧
    (renameThenCycle "/tmp/x.log" "/tmp/x.log.1" [[97], [98]] [99] OS.empty).readFile
        "/tmp/x.log.1" = some [97, 98] :=
  (rename_scenario "/tmp/x.log" "/tmp/x.log.1" [[97], [98]] [99] OS.empty rfl
    (by decide)).2

/-- C5 as stated fails: with "a" and "b" written to `/tmp/x.log`, then `Cycle`, then
the rename to `/tmp/x.log.1`, then "c" written, no file exists at `/tmp/x.log` and
`/tmp/x.log.1` holds "abc". -/
theorem cycle_then_rename_counterexample :
    (cycleThenRename "/tmp/x.log" "/tmp/x.log.1" [[97], [98]] [99] OS.empty).readFile
        "/tmp/x.log" = none ∧
    (cycleThenRename "/tmp/x.log" "/tmp/x.log.1" [[97], [98]] [99] OS.empty).readFile
        "/tmp/x.log.1" = some [97, 98, 99] ∧
    ¬ ((cycleThenRename "/tmp/x.log" "/tmp/x.log.1" [[97], [98]] [99] OS.empty).readFile
          "/tmp/x.log" = some [99] ∧
        (cycleThenRename "/tmp/x.log" "/tmp/x.log.1" [[97], [98]] [99] OS.empty).readFile
          "/tmp/x.log.1" = some [97, 98]) := by
  decide

/-- C6 (amended): on a path with no file, every call succeeding and nothing else
touching the file system, `Write(A)`, `Cycle`, `Write(B)` leaves the file at the path
holding `A` followed by `B`: `B` is not lost, `A` is there once, and it is still
there because the file is opened for append without truncation. -/
theorem write_cycle_write (p : String) (os : OS) (A B : Bytes) (hp : os.dir p = none) :
    (session p os ⟨none, none⟩
      [.write A .ok, .cycle ⟨none, none⟩, .write B .ok]).2.readFile p = some (A ++ B) := by
  simp [session, NewCycleWriter, run, step, CycleWriter.Cycle, CycleWriter.reopen,
    OpenFile, File.Close, CycleWriter.Write, File.Write, OS.readFile, hp]

theorem write_cycle_write_witness :
    (session "/tmp/x.log" OS.empty ⟨none, none⟩
      [.write [97] .ok, .cycle ⟨none, none⟩, .write [98] .ok]).2.readFile "/tmp/x.log"
      = some ([97] ++ [98]) :=
  write_cycle_write "/tmp/x.log" OS.empty [97] [98] rfl

/-- C6 as stated fails: after `Write("a")`, `Cycle`, `Write("b")` on a fresh path the
file holds "ab", not "b". -/
theorem write_cycle_write_counterexample :
    (session "/tmp/x.log" OS.empty ⟨none, none⟩
      [.write [97] .ok, .cycle ⟨none, none⟩, .write [98] .ok]).2.readFile "/tmp/x.log"
      = some [97, 98] ∧
    (session "/tmp/x.log" OS.empty ⟨none, none⟩
      [.write [97] .ok, .cycle ⟨none, none⟩, .write [98] .ok]).2.readFile "/tmp/x.log"
      ≠ some [98] := by
  decide

/-! ## Writes after a failed cycle -/

theorem write_nil (w : CycleWriter) (os : OS) (b : Bytes) (io : WriteOutcome)
    (h : w.fp = none) : w.Write os b io = ((0, some .invalid), w, os) := by
  simp [CycleWriter.Write, File.Write, h]

theorem run_writes_nil (w : CycleWriter) (os : OS) (ops : List Op) (h : w.fp = none)
    (hops : ∀ op ∈ ops, op.isWrite = true) :
    run w os ops = (ops.map (fun _ => Result.wrote 0 (some .invalid)), w, os) := by
  induction ops with
  | nil => rfl
  | cons op ops ih =>
    have hop := hops op (List.mem_cons_self _ _)
    cases op with
    | cycle io => simp [Op.isWrite] at hop
    | write b io =>
      have hs : step w os (.write b io) = (.wrote 0 (some .invalid), w, os) := by
        simp [step, write_nil w os b io h]
      simp only [run, hs, ih (fun o ho => hops o (List.mem_cons_of_mem _ ho)), List.map_cons]

theorem cycle_ok_handle (w : CycleWriter) (os : OS) (io : CycleOutcome)
    (h : (w.Cycle os io).1 = none) :
    ∃ f, (w.Cycle os io).2.1 = { filename := w.filename, fp := some f } ∧
      f.id = os.nextId ∧
      (w.Cycle os io).2.2.dir w.filename = some f.ino ∧
      (w.Cycle os io).2.2.trace.head? = some (.openFile w.filename (some f.id)) := by
  have key : ∀ (w1 : CycleWriter) (os1 : OS), w1.filename = w.filename →
      os1.nextId = os.nextId → (w1.reopen os1 io.openErr).1 = none →
      ∃ f, (w1.reopen os1 io.openErr).2.1 = { filename := w.filename, fp := some f } ∧
        f.id = os.nextId ∧
        (w1.reopen os1 io.openErr).2.2.dir w.filename = some f.ino ∧
        (w1.reopen os1 io.openErr).2.2.trace.head? =
          some (.openFile w.filename (some f.id)) := by
    intro w1 os1 hn hid hr
    rw [reopen_fst] at hr
    rw [hr]
    obtain ⟨_, h2, h3, h4, _, _⟩ := reopen_ok w1 os1
    refine ⟨{ id := os1.nextId, ino := os1.target w1.filename }, ?_, hid, ?_, ?_⟩
    · rw [h2, hn]
    · rw [← hn]; exact h4
    · rw [h3, hn]; rfl
  cases hw : w.fp with
  | none =>
    rw [cycle_nil w os io hw] at h ⊢
    exact key w os rfl rfl h
  | some f0 =>
    cases hc : io.closeErr with
    | some e => simp [cycle_close_err w os io f0 e hw hc] at h
    | none =>
      rw [cycle_close_ok w os io f0 hw hc] at h ⊢
      exact key _ _ rfl rfl h

/-- C3: after a `Cycle` that failed because the close failed, every `Write` made
before the next `Cycle` returns `(0, ErrInvalid)`, issues no call to the operating
system and leaves the writer and every file as they were.  After any later calls,
once a `Cycle` returns nil the handle is the resource that cycle opened on the
writer's path, the next `Write` returns what the write on that handle returns, and
when the operating system stores the bytes in full it returns the length of its
argument and nil, having appended the bytes to the file at that path through the new
handle. -/
theorem write_after_close_failure (w : CycleWriter) (os : OS) (io : CycleOutcome)
    (f : File) (e : Error) (hfp : w.fp = some f) (hclose : io.closeErr = some e) :
    (∀ ops, (∀ op ∈ ops, op.isWrite = true) →
      run (w.Cycle os io).2.1 (w.Cycle os io).2.2 ops =
        (ops.map (fun _ => Result.wrote 0 (some .invalid)),
          (w.Cycle os io).2.1, (w.Cycle os io).2.2)) ∧
    (∀ (mid : List Op) (io2 : CycleOutcome) (b : Bytes) (w2 : CycleWriter) (os2 : OS),
      (run (w.Cycle os io).2.1 (w.Cycle os io).2.2 mid).2 = (w2, os2) →
      (w2.Cycle os2 io2).1 = none →
      ∃ g, (w2.Cycle os2 io2).2.1.fp = some g ∧ g.id = os2.nextId ∧
        (w2.Cycle os2 io2).2.2.dir w2.filename = some g.ino ∧
        (∀ wo, ((w2.Cycle os2 io2).2.1.Write (w2.Cycle os2 io2).2.2 b wo).1 =
          (File.Write (w2.Cycle os2 io2).2.2 (some g) b wo).1) ∧
        ((w2.Cycle os2 io2).2.1.Write (w2.Cycle os2 io2).2.2 b .ok).1 = (b.length, none) ∧
        ((w2.Cycle os2 io2).2.1.Write (w2.Cycle os2 io2).2.2 b .ok).2.2.trace =
          .write g.id b.length :: (w2.Cycle os2 io2).2.2.trace ∧
        ((w2.Cycle os2 io2).2.1.Write (w2.Cycle os2 io2).2.2 b .ok).2.2.readFile
            w2.filename =
          ((w2.Cycle os2 io2).2.2.readFile w2.filename).map (· ++ b)) := by
  constructor
  · intro ops hops
    exact run_writes_nil _ _ ops (by rw [cycle_close_err w os io f e hfp hclose]) hops
  · intro mid io2 b w2 os2 _ hok
    obtain ⟨g, hg, hid, hdir, _⟩ := cycle_ok_handle w2 os2 io2 hok
    have hfpg : (w2.Cycle os2 io2).2.1.fp = some g := by rw [hg]
    refine ⟨g, hfpg, hid, hdir, ?_, ?_, ?_, ?_⟩
    · intro wo
      simp [CycleWriter.Write, hfpg]
    · rw [write_ok_some _ _ g b hfpg]
    · rw [write_ok_some _ _ g b hfpg]
    · rw [write_ok_some _ _ g b hfpg]
      simp [OS.readFile, hdir]

theorem write_after_close_failure_witness :
    run (CycleWriter.Cycle ⟨"/tmp/x.log", some ⟨0, 0⟩⟩
          (NewCycleWriter "/tmp/x.log" OS.empty ⟨none, none⟩).2 ⟨some (.errno 5), none⟩).2.1
        (CycleWriter.Cycle ⟨"/tmp/x.log", some ⟨0, 0⟩⟩
          (NewCycleWriter "/tmp/x.log" OS.empty ⟨none, none⟩).2 ⟨some (.errno 5), none⟩).2.2
        [.write [97] .ok, .write [] .ok] =
      ([.wrote 0 (some .invalid), .wrote 0 (some .invalid)],
        (CycleWriter.Cycle ⟨"/tmp/x.log", some ⟨0, 0⟩⟩
          (NewCycleWriter "/tmp/x.log" OS.empty ⟨none, none⟩).2 ⟨some (.errno 5), none⟩).2.1,
        (CycleWriter.Cycle ⟨"/tmp/x.log", some ⟨0, 0⟩⟩
          (NewCycleWriter "/tmp/x.log" OS.empty ⟨none, none⟩).2 ⟨some (.errno 5), none⟩).2.2) :=
  (write_after_close_failure ⟨"/tmp/x.log", some ⟨0, 0⟩⟩
    (NewCycleWriter "/tmp/x.log" OS.empty ⟨none, none⟩).2 ⟨some (.errno 5), none⟩
    ⟨0, 0⟩ (.errno 5) rfl rfl).1 [.write [97] .ok, .write [] .ok] (by decide)

/-! ## One resource at a time -/

theorem atMostOneOpen_cons (e : Syscall) (t : List Syscall) :
    AtMostOneOpen (e :: t) ↔ (live (e :: t)).length ≤ 1 ∧ AtMostOneOpen t := by
  unfold AtMostOneOpen
  constructor
  · intro h
    exact ⟨h _ (List.suffix_refl _), fun s hs => h s (hs.trans (List.suffix_cons e t))⟩
  · rintro ⟨h1, h2⟩ s hs
    rcases List.suffix_cons_iff.mp hs with rfl | hs
    · exact h1
    · exact h2 s hs

theorem opensWhenNoneOpen_cons (e : Syscall) (t : List Syscall) :
    OpensWhenNoneOpen (e :: t) ↔
      (∀ name id, e = .openFile name (some id) → live t = []) ∧ OpensWhenNoneOpen t := by
  unfold OpensWhenNoneOpen
  constructor
  · intro h
    refine ⟨?_, fun name id s hs => h name id s (hs.trans (List.suffix_cons e t))⟩
    rintro name id rfl
    exact h name id t (List.suffix_refl _)
  · rintro ⟨h1, h2⟩ name id s hs
    rcases List.suffix_cons_iff.mp hs with heq | hs
    · injection heq with he ht
      subst ht
      exact h1 name id he.symm
    · exact h2 name id s hs

theorem owned_nil : Owned [] none := by
  refine ⟨rfl, ?_, ?_, Or.inl rfl⟩
  · intro t ht
    rw [List.suffix_nil] at ht
    subst ht
    simp [live]
  · intro name id t ht
    rw [List.suffix_nil] at ht
    cases ht

theorem owned_write (tr : List Syscall) (fp : Option File) (id n : Nat)
    (h : Owned tr fp) : Owned (.write id n :: tr) fp := by
  obtain ⟨h1, h2, h3, h4⟩ := h
  refine ⟨by simpa [live] using h1, ?_, ?_, ?_⟩
  · rw [atMostOneOpen_cons]
    refine ⟨?_, h2⟩
    simpa [live] using h2 tr (List.suffix_refl _)
  · rw [opensWhenNoneOpen_cons]
    exact ⟨fun _ _ he => (nomatch he), h3⟩
  · simpa [lastOpened] using h4

theorem owned_close (tr : List Syscall) (f : File) (h : Owned tr (some f)) :
    Owned (.close f.id :: tr) none := by
  obtain ⟨h1, h2, h3, _⟩ := h
  have hl : live (.close f.id :: tr) = [] := by simp [live, h1]
  refine ⟨hl, ?_, ?_, Or.inl rfl⟩
  · rw [atMostOneOpen_cons]
    exact ⟨by simp [hl], h2⟩
  · rw [opensWhenNoneOpen_cons]
    exact ⟨fun _ _ he => (nomatch he), h3⟩

theorem owned_open_err (tr : List Syscall) (name : String) (h : Owned tr none) :
    Owned (.openFile name none :: tr) none := by
  obtain ⟨h1, h2, h3, _⟩ := h
  have hl : live (.openFile name none :: tr) = [] := by simpa [live] using h1
  refine ⟨hl, ?_, ?_, Or.inl rfl⟩
  · rw [atMostOneOpen_cons]
    exact ⟨by simp [hl], h2⟩
  · rw [opensWhenNoneOpen_cons]
    exact ⟨fun _ _ he => (nomatch he), h3⟩

theorem owned_open_ok (tr : List Syscall) (name : String) (f : File) (h : Owned tr none) :
    Owned (.openFile name (some f.id) :: tr) (some f) := by
  obtain ⟨h1, h2, h3, _⟩ := h
  have h1' : live tr = [] := by simpa using h1
  have hl : live (.openFile name (some f.id) :: tr) = [f.id] := by simp [live, h1']
  refine ⟨by simp [hl], ?_, ?_, Or.inr (by simp [lastOpened])⟩
  · rw [atMostOneOpen_cons]
    exact ⟨by simp [hl], h2⟩
  · rw [opensWhenNoneOpen_cons]
    exact ⟨fun _ _ _ => h1', h3⟩

theorem owned_reopen (w : CycleWriter) (os : OS) (oe : Option Error)
    (h : Owned os.trace none) :
    Owned (w.reopen os oe).2.2.trace (w.reopen os oe).2.1.fp := by
  cases oe with
  | some e =>
    rw [reopen_err]
    exact owned_open_err _ _ h
  | none =>
    obtain ⟨_, h2, h3, _⟩ := reopen_ok w os
    rw [h2, h3]
    exact owned_open_ok os.trace w.filename ⟨os.nextId, os.target w.filename⟩ h

theorem owned_cycle (w : CycleWriter) (os : OS) (io : CycleOutcome)
    (h : Owned os.trace w.fp) :
    Owned (w.Cycle os io).2.2.trace (w.Cycle os io).2.1.fp := by
  cases hw : w.fp with
  | none =>
    rw [cycle_nil w os io hw]
    rw [hw] at h
    exact owned_reopen w os _ h
  | some f =>
    rw [hw] at h
    cases hc : io.closeErr with
    | some e =>
      rw [cycle_close_err w os io f e hw hc]
      exact owned_close _ _ h
    | none =>
      rw [cycle_close_ok w os io f hw hc]
      exact owned_reopen _ _ _ (owned_close _ _ h)

theorem owned_Write (w : CycleWriter) (os : OS) (b : Bytes) (io : WriteOutcome)
    (h : Owned os.trace w.fp) :
    Owned (w.Write os b io).2.2.trace (w.Write os b io).2.1.fp := by
  cases hw : w.fp with
  | none =>
    rw [write_nil w os b io hw]
    exact h
  | some f =>
    cases io with
    | ok =>
      rw [write_ok_some w os f b hw]
      exact owned_write _ _ _ _ h
    | fail n e =>
      have : w.Write os b (.fail n e) = ((min n b.length, some e), w,
          { os with data := fun j => if j = f.ino then os.data j ++ b.take n else os.data j
                    trace := .write f.id (min n b.length) :: os.trace }) := by
        simp [CycleWriter.Write, File.Write, hw]
      rw [this]
      exact owned_write _ _ _ _ h

theorem owned_step (w : CycleWriter) (os : OS) (op : Op) (h : Owned os.trace w.fp) :
    Owned (step w os op).2.2.trace (step w os op).2.1.fp := by
  cases op with
  | write b io => exact owned_Write w os b io h
  | cycle io => exact owned_cycle w os io h

theorem owned_run (w : CycleWriter) (os : OS) (ops : List Op) (h : Owned os.trace w.fp) :
    Owned (run w os ops).2.2.trace (run w os ops).2.1.fp := by
  induction ops generalizing w os with
  | nil => exact h
  | cons op ops ih =>
    rw [run_cons_snd]
    exact ih _ _ (owned_step w os op h)

/-- C8: for a record of calls that starts empty at construction, whatever the
outcomes of the opens, closes and writes and whatever calls follow on the writer:
at every point of the record, those inside `Cycle` included, at most one resource is
opened and not closed, every open was issued while none was open, and at the end
the resources opened and not closed are exactly the handle, which is nil or the most
recently opened resource. -/
theorem at_most_one_open (filename : String) (os : OS) (io : CycleOutcome) (ops : List Op)
    (h0 : os.trace = []) :
    AtMostOneOpen (session filename os io ops).2.trace ∧
    OpensWhenNoneOpen (session filename os io ops).2.trace ∧
    (∀ w, (session filename os io ops).1 = some w →
      live (session filename os io ops).2.trace = (w.fp.map File.id).toList ∧
      (w.fp = none ∨ w.fp.map File.id = lastOpened (session filename os io ops).2.trace)) ∧
    ((session filename os io ops).1 = none →
      live (session filename os io ops).2.trace = []) := by
  have hc : Owned (CycleWriter.Cycle ⟨filename, none⟩ os io).2.2.trace
      (CycleWriter.Cycle ⟨filename, none⟩ os io).2.1.fp :=
    owned_cycle ⟨filename, none⟩ os io (by rw [h0]; exact owned_nil)
  rcases hr : CycleWriter.Cycle ⟨filename, none⟩ os io with ⟨r, w1, os1⟩
  rw [hr] at hc
  simp only at hc
  cases r with
  | some e =>
    have hs : session filename os io ops = (none, os1) := by
      simp [session, NewCycleWriter, hr]
    rw [hs]
    have hfp : w1.fp = none := by
      have := reopen_fst ⟨filename, none⟩ os io.openErr
      rw [← cycle_nil ⟨filename, none⟩ os io rfl, hr] at this
      have h2 := cycle_nil ⟨filename, none⟩ os io rfl
      rw [hr, ← this, reopen_err] at h2
      simp only [Prod.mk.injEq] at h2
      rw [h2.2.1]
    rw [hfp] at hc
    obtain ⟨a, b, c, _⟩ := hc
    exact ⟨b, c, by simp, fun _ => by simpa using a⟩
  | none =>
    have hs : session filename os io ops = (some (run w1 os1 ops).2.1, (run w1 os1 ops).2.2) :=
      session_some filename os os1 io w1 ops (by simp [NewCycleWriter, hr])
    have := owned_run w1 os1 ops hc
    rw [hs]
    obtain ⟨a, b, c, d⟩ := this
    refine ⟨b, c, ?_, by simp⟩
    intro w hw
    simp only [Option.some.injEq] at hw
    subst hw
    exact ⟨a, d⟩


theorem at_most_one_open_witness :
    AtMostOneOpen (session "/tmp/x.log" OS.empty ⟨none, none⟩
      [.write [97] .ok, .cycle ⟨some (.errno 5), none⟩, .cycle ⟨none, none⟩]).2.trace :=
  (at_most_one_open "/tmp/x.log" OS.empty ⟨none, none⟩
    [.write [97] .ok, .cycle ⟨some (.errno 5), none⟩, .cycle ⟨none, none⟩] rfl).1

/-! ## The handle between operations -/

theorem cycle_err_handle (w : CycleWriter) (os : OS) (io : CycleOutcome) (e : Error)
    (h : (w.Cycle os io).1 = some e) : (w.Cycle os io).2.1.fp = none := by
  have key : ∀ (w1 : CycleWriter) (os1 : OS), (w1.reopen os1 io.openErr).1 = some e →
      (w1.reopen os1 io.openErr).2.1.fp = none := by
    intro w1 os1 hr
    rw [reopen_fst] at hr
    rw [hr, reopen_err]
  cases hw : w.fp with
  | none =>
    rw [cycle_nil w os io hw] at h ⊢
    exact key w os h
  | some f0 =>
    cases hc : io.closeErr with
    | some e0 => rw [cycle_close_err w os io f0 e0 hw hc]
    | none =>
      rw [cycle_close_ok w os io f0 hw hc] at h ⊢
      exact key _ _ h

theorem cycle_handle_iff (w : CycleWriter) (os : OS) (io : CycleOutcome) :
    (w.Cycle os io).2.1.fp.isSome = true ↔ (w.Cycle os io).1 = none := by
  constructor
  · intro h
    cases hr : (w.Cycle os io).1 with
    | none => rfl
    | some e => simp [cycle_err_handle w os io e hr] at h
  · intro h
    obtain ⟨f, hf, _⟩ := cycle_ok_handle w os io h
    rw [hf]
    rfl

theorem cycle_handle_live (w : CycleWriter) (os : OS) (io : CycleOutcome) (f : File)
    (h : (w.Cycle os io).2.1.fp = some f) : f.id ∈ live (w.Cycle os io).2.2.trace := by
  have hok : (w.Cycle os io).1 = none := (cycle_handle_iff w os io).mp (by rw [h]; rfl)
  obtain ⟨g, hg, _, _, hh⟩ := cycle_ok_handle w os io hok
  have hfg : g = f := by
    rw [hg] at h
    simpa using h
  subst hfg
  cases ht : (w.Cycle os io).2.2.trace with
  | nil => simp [ht] at hh
  | cons c t =>
    rw [ht] at hh
    simp only [List.head?_cons, Option.some.injEq] at hh
    subst hh
    simp [live]

theorem write_keeps (w : CycleWriter) (os : OS) (b : Bytes) (io : WriteOutcome) :
    (w.Write os b io).2.1 = w ∧ live (w.Write os b io).2.2.trace = live os.trace := by
  cases hw : w.fp with
  | none => simp [write_nil w os b io hw]
  | some f =>
    cases io <;> simp [CycleWriter.Write, File.Write, hw, live]

theorem run_cons_fst (w : CycleWriter) (os : OS) (op : Op) (ops : List Op) :
    (run w os (op :: ops)).1 =
      (step w os op).1 :: (run (step w os op).2.1 (step w os op).2.2 ops).1 := rfl

theorem run_handle (w : CycleWriter) (os : OS) (ops : List Op) (init : Option Error)
    (h1 : w.fp.isSome = true ↔ init = none)
    (h2 : ∀ f, w.fp = some f → f.id ∈ live os.trace) :
    ((run w os ops).2.1.fp.isSome = true ↔ lastCycleErr init (run w os ops).1 = none) ∧
    (∀ f, (run w os ops).2.1.fp = some f → f.id ∈ live (run w os ops).2.2.trace) := by
  induction ops generalizing w os init with
  | nil => exact ⟨h1, h2⟩
  | cons op ops ih =>
    rw [run_cons_snd, run_cons_fst]
    cases op with
    | write b io =>
      obtain ⟨hw, hl⟩ := write_keeps w os b io
      have hs1 : (step w os (.write b io)).2.1 = w := hw
      have hs2 : live (step w os (.write b io)).2.2.trace = live os.trace := hl
      have := ih (step w os (.write b io)).2.1 (step w os (.write b io)).2.2 init
        (by rw [hs1]; exact h1) (by rw [hs1, hs2]; exact h2)
      simpa [lastCycleErr, step] using this
    | cycle io =>
      have := ih (step w os (.cycle io)).2.1 (step w os (.cycle io)).2.2
        (w.Cycle os io).1 (cycle_handle_iff w os io) (cycle_handle_live w os io)
      simpa [lastCycleErr, step] using this

/-- C7 (amended): for a writer that `NewCycleWriter` returned and any sequence of
completed `Write` and `Cycle` calls on it, whatever the outcomes of the underlying
calls, the handle after the last call is present exactly when the most recent
`Cycle` (the one of the construction when the sequence has none) returned nil, and a
handle that is present is a resource opened and not closed. -/
theorem handle_present_iff (filename : String) (os os1 : OS) (io : CycleOutcome)
    (w : CycleWriter) (ops : List Op)
    (hnew : NewCycleWriter filename os io = (some w, os1)) :
    ((run w os1 ops).2.1.fp.isSome = true ↔
      lastCycleErr none (run w os1 ops).1 = none) ∧
    (∀ f, (run w os1 ops).2.1.fp = some f → f.id ∈ live (run w os1 ops).2.2.trace) := by
  have hc : CycleWriter.Cycle ⟨filename, none⟩ os io = (none, w, os1) := by
    rcases hr : CycleWriter.Cycle ⟨filename, none⟩ os io with ⟨r, w1, os2⟩
    cases r with
    | some e => simp [NewCycleWriter, hr] at hnew
    | none =>
      simp only [NewCycleWriter, hr, Prod.mk.injEq, Option.some.injEq] at hnew
      rw [hnew.1, hnew.2]
  have h1 := cycle_handle_iff ⟨filename, none⟩ os io
  have h2 := cycle_handle_live ⟨filename, none⟩ os io
  rw [hc] at h1 h2
  exact run_handle w os1 ops none (by simpa using h1) h2

theorem handle_present_iff_witness :
    (run ⟨"/tmp/x.log", some ⟨0, 0⟩⟩ (NewCycleWriter "/tmp/x.log" OS.empty ⟨none, none⟩).2
        [.write [97] .ok, .cycle ⟨none, some (.errno 13)⟩, .cycle ⟨none, none⟩]).2.1.fp.isSome
        = true ↔
      lastCycleErr none
        (run ⟨"/tmp/x.log", some ⟨0, 0⟩⟩ (NewCycleWriter "/tmp/x.log" OS.empty ⟨none, none⟩).2
          [.write [97] .ok, .cycle ⟨none, some (.errno 13)⟩, .cycle ⟨none, none⟩]).1 = none :=
  (handle_present_iff "/tmp/x.log" OS.empty _ ⟨none, none⟩ ⟨"/tmp/x.log", some ⟨0, 0⟩⟩
    [.write [97] .ok, .cycle ⟨none, some (.errno 13)⟩, .cycle ⟨none, none⟩] rfl).1

/-- C7 as stated fails: a writer is constructed on `/tmp/x.log`, then a `Cycle`
whose close fails completes; the handle observed afterwards is nil although
construction succeeded. -/
theorem handle_absent_counterexample :
    (NewCycleWriter "/tmp/x.log" OS.empty ⟨none, none⟩).1 =
      some ⟨"/tmp/x.log", some ⟨0, 0⟩⟩ ∧
    (session "/tmp/x.log" OS.empty ⟨none, none⟩ [.cycle ⟨some (.errno 5), none⟩]).1 =
      some ⟨"/tmp/x.log", none⟩ := by
  decide


/-! ## The signal listener -/

theorem run_append_fst (w : CycleWriter) (os : OS) (xs ys : List Op) :
    (run w os (xs ++ ys)).1 =
      (run w os xs).1 ++ (run (run w os xs).2.1 (run w os xs).2.2 ys).1 := by
  induction xs generalizing w os with
  | nil => rfl
  | cons x xs ih =>
    simp only [List.cons_append, run_cons_fst, run_cons_snd, ih]

theorem log_eq (p : Listener) (line : LogLine) (lo : LogOutcome) :
    p.log line lo =
      { p with w := (run p.w p.os (logOps p.logOutput p.sig line lo)).2.1
               os := (run p.w p.os (logOps p.logOutput p.sig line lo)).2.2
               stdout := p.stdout ++
                 (if p.logOutput = .stdout then lo.io.stored (lo.text p.sig line) else [])
               logged := (p.logOutput, line) :: p.logged } := by
  cases hd : p.logOutput <;> simp [Listener.log, hd, logOps, run, step]

theorem log_results (w : CycleWriter) (os : OS) (dest : LogOutput) (sig : Signal)
    (line : LogLine) (lo : LogOutcome) :
    (run w os (logOps dest sig line lo)).1.any Result.failedCycle = false := by
  cases dest <;> simp [logOps, run, step, Result.failedCycle]


theorem ops_results (w : CycleWriter) (os : OS) (dest : LogOutput) (sig : Signal)
    (d : Delivery) :
    (run w os (d.failOps dest sig)).1.getLast? =
      some (.cycled
        (CycleWriter.Cycle (run w os (logOps dest sig .receivedSignal d.received)).2.1
          (run w os (logOps dest sig .receivedSignal d.received)).2.2 d.cycle).1) ∧
    ((run w os (d.ops dest sig)).1.any Result.failedCycle = false ↔
      (CycleWriter.Cycle (run w os (logOps dest sig .receivedSignal d.received)).2.1
          (run w os (logOps dest sig .receivedSignal d.received)).2.2 d.cycle).1 = none) := by
  constructor
  · simp only [Delivery.failOps, run_append_fst]
    exact List.getLast?_concat _
  · simp only [Delivery.ops, run_append_fst, List.any_append, log_results, Bool.or_false,
      Bool.false_or]
    cases h : (CycleWriter.Cycle (run w os (logOps dest sig .receivedSignal d.received)).2.1
          (run w os (logOps dest sig .receivedSignal d.received)).2.2 d.cycle).1 <;>
      simp [run, step, h, Result.failedCycle]

theorem deliver_ok (p : Listener) (d : Delivery) (h : p.listening = true)
    (hok : (run p.w p.os (d.ops p.logOutput p.sig)).1.any Result.failedCycle = false) :
    (p.deliver d).listening = true ∧
    (p.deliver d).w = (run p.w p.os (d.ops p.logOutput p.sig)).2.1 ∧
    (p.deliver d).os = (run p.w p.os (d.ops p.logOutput p.sig)).2.2 ∧
    (p.deliver d).logOutput = p.logOutput ∧
    (p.deliver d).sig = p.sig ∧
    (p.deliver d).calls = none :: p.calls := by
  have hc := (ops_results p.w p.os p.logOutput p.sig d).2.mp hok
  simp only [Listener.listening] at h
  unfold Listener.deliver
  simp only [h, if_true]
  rw [log_eq p .receivedSignal d.received]
  simp only
  rcases hr : (CycleWriter.Cycle
      (run p.w p.os (logOps p.logOutput p.sig .receivedSignal d.received)).2.1
      (run p.w p.os (logOps p.logOutput p.sig .receivedSignal d.received)).2.2 d.cycle)
    with ⟨r, w1, os1⟩
  rw [hr] at hc
  simp only at hc
  subst hc
  simp only [log_eq]
  simp only [Delivery.ops, run_append, Listener.listening, h]
  simp [run, step, hr]


theorem deliver_fail (p : Listener) (d : Delivery) (e : Error) (h : p.listening = true)
    (hc : (run p.w p.os (d.failOps p.logOutput p.sig)).1.getLast? =
      some (.cycled (some e))) :
    (p.deliver d).w = (run p.w p.os (d.failOps p.logOutput p.sig)).2.1 ∧
    (p.deliver d).os = (run p.w p.os (d.failOps p.logOutput p.sig)).2.2 ∧
    (p.deliver d).calls = some e :: p.calls ∧
    (p.deliver d).logOutput = .stdout ∧
    (p.deliver d).stdout =
      p.stdout ++
        (if p.logOutput = .stdout then
          d.received.io.stored (d.received.text p.sig .receivedSignal) else []) ++
        d.after.io.stored (d.after.text p.sig .couldNotCycle) ∧
    (p.deliver d).logged =
      (.stdout, .couldNotCycle) :: (p.logOutput, .receivedSignal) :: p.logged ∧
    (p.deliver d).notified = false ∧
    (p.deliver d).running = false := by
  rw [(ops_results p.w p.os p.logOutput p.sig d).1] at hc
  simp only [Option.some.injEq, Result.cycled.injEq] at hc
  simp only [Listener.listening] at h
  unfold Listener.deliver
  simp only [h, if_true]
  rw [log_eq p .receivedSignal d.received]
  simp only
  rcases hr : (CycleWriter.Cycle
      (run p.w p.os (logOps p.logOutput p.sig .receivedSignal d.received)).2.1
      (run p.w p.os (logOps p.logOutput p.sig .receivedSignal d.received)).2.2 d.cycle)
    with ⟨r, w1, os1⟩
  rw [hr] at hc
  simp only at hc
  subst hc
  simp only [log_eq]
  simp only [Delivery.failOps, run_append]
  simp [run, step, hr]

theorem deliver_stopped (p : Listener) (d : Delivery) (h : p.listening = false) :
    p.deliver d = p := by
  simp only [Listener.listening] at h
  simp [Listener.deliver, h]

theorem deliverAll_stopped (p : Listener) (ds : List Delivery)
    (h : p.listening = false) : p.deliverAll ds = p := by
  induction ds with
  | nil => rfl
  | cons d ds ih => simp only [Listener.deliverAll, deliver_stopped p d h, ih]

theorem deliverAll_append (p : Listener) (xs ys : List Delivery) :
    p.deliverAll (xs ++ ys) = (p.deliverAll xs).deliverAll ys := by
  induction xs generalizing p with
  | nil => rfl
  | cons x xs ih => exact ih _

theorem ops_count (dest : LogOutput) (sig : Signal) (ds : List Delivery) :
    (ds.flatMap (Delivery.ops dest sig)).countP (fun o => !o.isWrite) = ds.length := by
  induction ds with
  | nil => rfl
  | cons d ds ih =>
    rw [List.flatMap_cons, List.countP_append, ih, List.length_cons, Nat.add_comm]
    congr 1
    cases dest <;> simp [Delivery.ops, logOps, Op.isWrite]

theorem deliverAll_ok (p : Listener) (ds : List Delivery) (h : p.listening = true)
    (hok : (run p.w p.os (ds.flatMap (Delivery.ops p.logOutput p.sig))).1.any
      Result.failedCycle = false) :
    (p.deliverAll ds).listening = true ∧
    (p.deliverAll ds).w = (run p.w p.os (ds.flatMap (Delivery.ops p.logOutput p.sig))).2.1 ∧
    (p.deliverAll ds).os = (run p.w p.os (ds.flatMap (Delivery.ops p.logOutput p.sig))).2.2 ∧
    (p.deliverAll ds).logOutput = p.logOutput ∧
    (p.deliverAll ds).sig = p.sig ∧
    (p.deliverAll ds).calls = List.replicate ds.length none ++ p.calls := by
  induction ds generalizing p with
  | nil => exact ⟨h, rfl, rfl, rfl, rfl, rfl⟩
  | cons d ds ih =>
    rw [List.flatMap_cons, run_append_fst, List.any_append, Bool.or_eq_false_iff] at hok
    obtain ⟨h1, h2, h3, h4, h5, h6⟩ := deliver_ok p d h hok.1
    have hok2 := hok.2
    rw [← h2, ← h3, ← h4, ← h5] at hok2
    obtain ⟨g1, g2, g3, g4, g5, g6⟩ := ih (p.deliver d) h1 hok2
    have hcons : p.deliverAll (d :: ds) = (p.deliver d).deliverAll ds := rfl
    rw [hcons]
    refine ⟨g1, ?_, ?_, g4.trans h4, g5.trans h5, ?_⟩
    · rw [g2, List.flatMap_cons, run_append, h2, h3, h4, h5]
    · rw [g3, List.flatMap_cons, run_append, h2, h3, h4, h5]
    · rw [g6, h6, List.length_cons, List.replicate_succ']
      simp

/-- C9: the listener as a step function over the deliveries of its signal.  From a
listening state, when no `Cycle` among the calls of the deliveries `pre` returns an
error and the `Cycle` of the next delivery `d` returns the error `e`:
the deliveries in `pre` act on the writer and the files as the sequence of calls
that has, for each delivery, the `Write` of the receipt line when the logger writes to
the writer, exactly one `Cycle`, and the `Write` of the line that a new file starts;
the listener is listening again after them.  The delivery `d` adds the receipt line
and one more `Cycle`; after it the default logger writes to standard output, the
diagnostic is the last thing written there and the last line logged, the
registration is undone and the goroutine has returned.  Whatever deliveries `post`
follow, the state stays the one reached after `d`: no further `Cycle` call, no change
of the writer or of the files. -/
theorem listener_stops_on_failure (p : Listener) (pre post : List Delivery)
    (d : Delivery) (e : Error)
    (hl : p.listening = true)
    (hpre : (run p.w p.os (pre.flatMap (Delivery.ops p.logOutput p.sig))).1.any
      Result.failedCycle = false)
    (hfail : (run p.w p.os (pre.flatMap (Delivery.ops p.logOutput p.sig) ++
      d.failOps p.logOutput p.sig)).1.getLast? = some (.cycled (some e))) :
    ((p.deliverAll pre).listening = true ∧
      ((p.deliverAll pre).w, (p.deliverAll pre).os) =
        (run p.w p.os (pre.flatMap (Delivery.ops p.logOutput p.sig))).2 ∧
      (pre.flatMap (Delivery.ops p.logOutput p.sig)).countP (fun o => !o.isWrite) =
        pre.length ∧
      (p.deliverAll pre).calls = List.replicate pre.length none ++ p.calls) ∧
    (((p.deliverAll (pre ++ [d])).w, (p.deliverAll (pre ++ [d])).os) =
        (run p.w p.os (pre.flatMap (Delivery.ops p.logOutput p.sig) ++
          d.failOps p.logOutput p.sig)).2 ∧
      (d.failOps p.logOutput p.sig).countP (fun o => !o.isWrite) = 1 ∧
      (p.deliverAll (pre ++ [d])).calls =
        some e :: (List.replicate pre.length none ++ p.calls) ∧
      (p.deliverAll (pre ++ [d])).logOutput = .stdout ∧
      (p.deliverAll (pre ++ [d])).stdout =
        (p.deliverAll pre).stdout ++
          (if p.logOutput = .stdout then
            d.received.io.stored (d.received.text p.sig .receivedSignal) else []) ++
          d.after.io.stored (d.after.text p.sig .couldNotCycle) ∧
      (p.deliverAll (pre ++ [d])).logged.head? = some (.stdout, .couldNotCycle) ∧
      (p.deliverAll (pre ++ [d])).notified = false ∧
      (p.deliverAll (pre ++ [d])).running = false) ∧
    p.deliverAll (pre ++ d :: post) = p.deliverAll (pre ++ [d]) := by
  obtain ⟨h1, h2, h3, h4, h5, h6⟩ := deliverAll_ok p pre hl hpre
  have hd : p.deliverAll (pre ++ [d]) = (p.deliverAll pre).deliver d := by
    rw [deliverAll_append]
    rfl
  have hfail2 : (run (p.deliverAll pre).w (p.deliverAll pre).os
      (d.failOps (p.deliverAll pre).logOutput (p.deliverAll pre).sig)).1.getLast? =
        some (.cycled (some e)) := by
    rw [run_append_fst, List.getLast?_append,
      (ops_results _ _ p.logOutput p.sig d).1] at hfail
    rw [h2, h3, h4, h5, (ops_results _ _ p.logOutput p.sig d).1]
    simpa using hfail
  obtain ⟨f1, f2, f3, f4, f5, f6, f7, f8⟩ := deliver_fail (p.deliverAll pre) d e h1 hfail2
  refine ⟨⟨h1, ?_, ops_count _ _ pre, h6⟩, ⟨?_, ?_, ?_, ?_, ?_, ?_, ?_, ?_⟩, ?_⟩
  · rw [h2, h3]
  · rw [hd, f1, f2, run_append, h2, h3, h4, h5]
  · cases p.logOutput <;> simp [Delivery.failOps, logOps, Op.isWrite]
  · rw [hd, f3, h6]
  · rw [hd, f4]
  · rw [hd, f5, h4, h5]
  · rw [hd, f6]
    rfl
  · rw [hd, f7]
  · rw [hd, f8]
  · have hstop : (p.deliverAll (pre ++ [d])).listening = false := by
      simp [Listener.listening, hd, f7]
    have : pre ++ d :: post = (pre ++ [d]) ++ post := by simp
    rw [this, deliverAll_append, deliverAll_stopped _ post hstop]


theorem listener_stops_on_failure_witness :
    ((Listener.deliverAll
          (CycleWriter.OnSignal ⟨"/tmp/x.log", some ⟨0, 0⟩⟩
          (NewCycleWriter "/tmp/x.log" OS.empty ⟨none, none⟩).2 ⟨1, "hangup"⟩ .writer)
          [⟨⟨[], .ok⟩, ⟨none, none⟩, ⟨[], .ok⟩⟩]).w,
      (Listener.deliverAll
          (CycleWriter.OnSignal ⟨"/tmp/x.log", some ⟨0, 0⟩⟩
          (NewCycleWriter "/tmp/x.log" OS.empty ⟨none, none⟩).2 ⟨1, "hangup"⟩ .writer)
          [⟨⟨[], .ok⟩, ⟨none, none⟩, ⟨[], .ok⟩⟩]).os) =
      (run ⟨"/tmp/x.log", some ⟨0, 0⟩⟩ (NewCycleWriter "/tmp/x.log" OS.empty ⟨none, none⟩).2
        (List.flatMap [⟨⟨[], .ok⟩, ⟨none, none⟩, ⟨[], .ok⟩⟩]
          (Delivery.ops .writer ⟨1, "hangup"⟩))).2 ∧
    Listener.deliverAll
        (CycleWriter.OnSignal ⟨"/tmp/x.log", some ⟨0, 0⟩⟩
          (NewCycleWriter "/tmp/x.log" OS.empty ⟨none, none⟩).2 ⟨1, "hangup"⟩ .writer)
        ([⟨⟨[], .ok⟩, ⟨none, none⟩, ⟨[], .ok⟩⟩] ++
          ⟨⟨[], .ok⟩, ⟨some (.errno 5), none⟩, ⟨[], .ok⟩⟩ ::
            [⟨⟨[], .ok⟩, ⟨none, none⟩, ⟨[], .ok⟩⟩, ⟨⟨[], .ok⟩, ⟨none, none⟩, ⟨[], .ok⟩⟩]) =
      Listener.deliverAll
        (CycleWriter.OnSignal ⟨"/tmp/x.log", some ⟨0, 0⟩⟩
          (NewCycleWriter "/tmp/x.log" OS.empty ⟨none, none⟩).2 ⟨1, "hangup"⟩ .writer)
        ([⟨⟨[], .ok⟩, ⟨none, none⟩, ⟨[], .ok⟩⟩] ++
          [⟨⟨[], .ok⟩, ⟨some (.errno 5), none⟩, ⟨[], .ok⟩⟩]) :=
  have h := listener_stops_on_failure
    (CycleWriter.OnSignal ⟨"/tmp/x.log", some ⟨0, 0⟩⟩
          (NewCycleWriter "/tmp/x.log" OS.empty ⟨none, none⟩).2 ⟨1, "hangup"⟩ .writer)
    [⟨⟨[], .ok⟩, ⟨none, none⟩, ⟨[], .ok⟩⟩]
    [⟨⟨[], .ok⟩, ⟨none, none⟩, ⟨[], .ok⟩⟩, ⟨⟨[], .ok⟩, ⟨none, none⟩, ⟨[], .ok⟩⟩]
    ⟨⟨[], .ok⟩, ⟨some (.errno 5), none⟩, ⟨[], .ok⟩⟩ (.errno 5)
    rfl rfl rfl
  ⟨h.1.2.1, h.2.2⟩

end Logext
